import Mathlib

set_option maxRecDepth 8000

/-!
Verification development for the interviews-explorer pipeline.

The embedded code is the repository's `embed.py` (resumable batch embedding
builder) and `main.py` (similarity search endpoint).  The embedding follows
these conventions:

* Python floats are idealised as exact rationals (`ℚ`).  A similarity score is
  represented by `RVal`: either `RVal.nan` (IEEE `0.0/0.0`, which numpy
  produces — with a warning, not an exception — when a norm is zero) or
  `RVal.val q` where `q` is the *signed square* of the cosine,
  `dot a b * |dot a b| / (dot a a * dot b b)`.  The map `c ↦ c·|c|` is
  strictly increasing, so this representation is exact over `ℚ` while
  preserving order, equality of scores, the zero score and the score 1;
  every property considered here (sorting, ties, zero/NaN detection,
  pagination) is invariant under this reparameterisation.  `numpy.dot`
  raises `ValueError` on 1-d shape mismatch; this is the `dimensionMismatch`
  error.  The display-only `round(score, 4)` is omitted.
* Python dicts are insertion-ordered association lists; Python sets are lists
  where only membership matters.
* The external embedding provider is a deterministic map from the request
  text to a vector (a fixed table of responses), per the spec's abstract
  `embed(texts, mode) -> vectors` capability; the rate-limit retry loop of
  `embed.py` retries the *same* batch and therefore does not change any value
  computed here.
* `list.sort(key=..., reverse=True)` in CPython is a stable descending sort;
  any two stable sorts for the same total preorder agree, so it is modelled
  by the stable `List.insertionSort` with the corresponding descending
  comparator.  `RVal.le` totalises the float comparison by placing `nan` at
  the bottom; on inputs whose scores are all non-`nan` — the only inputs for
  which CPython's Timsort has a specified order — the model agrees with the
  source.
-/

/-- Errors surfaced by the search endpoint model: `unavailable` is the HTTP 503
raised when no embeddings are loaded (`main.py` lines 250-253);
`dimensionMismatch` is the `ValueError` numpy raises when `np.dot` is applied
to 1-d arrays of different lengths. -/
inductive SErr where
  | unavailable : SErr
  | dimensionMismatch : SErr
deriving DecidableEq

/-- A similarity score: IEEE `nan`, or an exact rational representing the
cosine via its signed square (see the file docstring). -/
inductive RVal where
  | nan : RVal
  | val : ℚ → RVal
deriving DecidableEq

/-- Totalised comparison on scores used by the sort model: `nan` is placed at
the bottom; real values compare as rationals.  On `nan`-free inputs this is
exactly the float comparison used by `list.sort`. -/
def RVal.le : RVal → RVal → Bool
  | .nan, _ => true
  | .val _, .nan => false
  | .val a, .val b => decide (a ≤ b)

/-- Dot product of two equal-length vectors (`np.dot` on 1-d arrays). -/
def dot (a b : List ℚ) : ℚ := (List.zipWith (· * ·) a b).sum

/-- Model of `cosine_similarity` (`main.py` lines 39-43):
`np.dot(a, b) / (np.linalg.norm(a) * np.linalg.norm(b))`.
`np.dot` raises on shape mismatch; when either norm is exactly `0` the dot
product is also `0` and the float division `0.0/0.0` yields `nan` (numpy emits
a RuntimeWarning but no exception); otherwise the value is the cosine,
represented by its signed square. -/
def cosine_similarity (a b : List ℚ) : Except SErr RVal :=
  if a.length = b.length then
    if dot a a = 0 ∨ dot b b = 0 then .ok .nan
    else .ok (.val (dot a b * |dot a b| / (dot a a * dot b b)))
  else .error .dimensionMismatch

/-- Model of Python `str.lower()` (ASCII case mapping, structurally
recursive so that concrete instances evaluate). -/
def strLower (s : String) : String := String.mk (s.data.map Char.toLower)

/-- Model of Python `str.upper()` (ASCII case mapping). -/
def strUpper (s : String) : String := String.mk (s.data.map Char.toUpper)

/-- One role-labelled message of a transcript. -/
structure Msg where
  role : String
  content : String
deriving DecidableEq

/-- A transcript record as stored in `data/transcripts.json`.  Metadata fields
are read in the source with `.get(field, "")` / `.get(field, [])`, so a
missing field is identified with the empty string / empty list; the unknown
sentinel is the literal string `"UNKNOWN"` (for list fields, an `"UNKNOWN"`
element). -/
structure Transcript where
  transcript_id : String
  split : String
  messages : List Msg := []
  job_title : String := ""
  industry : String := ""
  sentiment : String := ""
  ai_tools_mentioned : List String := []
  primary_use_cases : List String := []
  key_pain_points : List String := []
  last_project_summary : String := ""
deriving DecidableEq

/-- Role-prefixed transcript body of `compose_embedding_text`:
`"\n".join(f"{msg['role'].upper()}: {msg['content']}" for msg in messages)`. -/
def transcriptText (t : Transcript) : String :=
  String.intercalate "\n" (t.messages.map (fun m => strUpper m.role ++ ": " ++ m.content))

/-- The `sections` list built by `compose_embedding_text` (`embed.py` lines
50-65): the transcript section always, then each labelled metadata section
guarded by the source's `if` (Python truthiness: nonempty, and for the string
fields also not the `"UNKNOWN"` sentinel; list fields are only tested for
nonemptiness). -/
def composeSections (t : Transcript) : List String :=
  ["INTERVIEW TRANSCRIPT:\n" ++ transcriptText t]
  ++ (if t.job_title ≠ "" ∧ t.job_title ≠ "UNKNOWN" then ["JOB TITLE: " ++ t.job_title] else [])
  ++ (if t.industry ≠ "" ∧ t.industry ≠ "UNKNOWN" then ["INDUSTRY: " ++ t.industry] else [])
  ++ (if t.ai_tools_mentioned ≠ [] then
        ["AI TOOLS: " ++ String.intercalate ", " t.ai_tools_mentioned] else [])
  ++ (if t.primary_use_cases ≠ [] then
        ["USE CASES: " ++ String.intercalate ", " t.primary_use_cases] else [])
  ++ (if t.key_pain_points ≠ [] then
        ["PAIN POINTS: " ++ String.intercalate ", " t.key_pain_points] else [])
  ++ (if t.last_project_summary ≠ "" ∧ t.last_project_summary ≠ "UNKNOWN" then
        ["PROJECT SUMMARY: " ++ t.last_project_summary] else [])

/-- Model of `compose_embedding_text` (`embed.py` lines 33-67):
`"\n\n".join(sections)`. -/
def compose_embedding_text (t : Transcript) : String :=
  String.intercalate "\n\n" (composeSections t)

/-- Spec-shaped section template: the seven labelled sections in the spec's
fixed order, each paired with its presence condition (string-valued sections
present iff nonempty and not the `"UNKNOWN"` sentinel; list-valued sections
present iff the list is nonempty).  Used to characterise `composeSections`. -/
def sectionTemplate (t : Transcript) : List (Bool × String) :=
  [(true, "INTERVIEW TRANSCRIPT:\n" ++ transcriptText t),
   (decide (t.job_title ≠ "" ∧ t.job_title ≠ "UNKNOWN"), "JOB TITLE: " ++ t.job_title),
   (decide (t.industry ≠ "" ∧ t.industry ≠ "UNKNOWN"), "INDUSTRY: " ++ t.industry),
   (decide (t.ai_tools_mentioned ≠ []),
      "AI TOOLS: " ++ String.intercalate ", " t.ai_tools_mentioned),
   (decide (t.primary_use_cases ≠ []),
      "USE CASES: " ++ String.intercalate ", " t.primary_use_cases),
   (decide (t.key_pain_points ≠ []),
      "PAIN POINTS: " ++ String.intercalate ", " t.key_pain_points),
   (decide (t.last_project_summary ≠ "" ∧ t.last_project_summary ≠ "UNKNOWN"),
      "PROJECT SUMMARY: " ++ t.last_project_summary)]

/-! ## Embedding batch builder (`embed.py`) -/

/-- Checkpoint content as `load_checkpoint` reads it (`embed.py` lines 76-82):
the processed-id set and the partial embeddings dict.  (`save_checkpoint` also
writes `model` and `dimension`, but `load_checkpoint` never reads them back,
so they are carried separately in `BuildState`.) -/
structure CP where
  processed_ids : List String
  embeddings : List (String × List ℚ)
deriving DecidableEq

/-- In-run state of `main` in `embed.py`: the checkpoint data plus the
`dimension` local (`None` until the first successful batch). -/
structure BuildState where
  cp : CP
  dimension : Option Nat
deriving DecidableEq

/-- Python `set.add`: membership-preserving insert (sets are modelled as lists
where only membership matters). -/
def setInsert (k : String) (s : List String) : List String :=
  if s.contains k then s else s ++ [k]

/-- Python dict assignment `d[k] = v`: overwrite in place if the key is
present (dicts keep the original position), else append. -/
def dictInsert (k : String) (v : List ℚ) : List (String × List ℚ) → List (String × List ℚ)
  | [] => [(k, v)]
  | (a, b) :: rest => if a = k then (k, v) :: rest else (a, b) :: dictInsert k v rest

/-- One iteration of the merge loop (`embed.py` lines 152-154):
`embeddings[tid] = embedding; processed_ids.add(tid)` for one transcript of a
batch, with the provider response for its composed text. -/
def embedOne (provide : String → List ℚ) (c : CP) (t : Transcript) : CP :=
  { processed_ids := setInsert t.transcript_id c.processed_ids,
    embeddings := dictInsert t.transcript_id (provide (compose_embedding_text t)) c.embeddings }

/-- One batch of the main loop (`embed.py` lines 132-163): embed every
transcript of the batch and merge the results, then set `dimension` from the
first vector of the first successful batch (`if dimension is None:
dimension = len(result.embeddings[0])`).  No later comparison against the
recorded dimension exists in the source.  The state after this function is
what `save_checkpoint` persists. -/
def processBatch (provide : String → List ℚ) (st : BuildState) (batch : List Transcript) :
    BuildState :=
  { cp := batch.foldl (embedOne provide) st.cp,
    dimension :=
      match st.dimension with
      | some d => some d
      | none => batch.head?.map (fun t => (provide (compose_embedding_text t)).length) }

/-- The unprocessed records (`embed.py` line 118):
`[t for t in transcripts if t["transcript_id"] not in processed_ids]`. -/
def toProcess (processed : List String) (transcripts : List Transcript) : List Transcript :=
  transcripts.filter (fun t => !(processed.contains t.transcript_id))

/-- Batch size constant of `embed.py` (line 28). -/
def BATCH_SIZE : Nat := 64

/-- Fuel-indexed worker for `chunks`, structurally recursive in the fuel so
that concrete runs evaluate; any fuel at least the list length gives the
batch decomposition. -/
def chunksGo (n : Nat) : Nat → List α → List (List α)
  | _, [] => []
  | 0, _ :: _ => []
  | fuel + 1, x :: xs => (x :: xs).take n :: chunksGo n fuel (xs.drop (n - 1))

/-- Partition into consecutive batches of size `n`
(`for i in range(0, len(to_process), BATCH_SIZE)`); meaningful for `1 ≤ n`. -/
def chunks (n : Nat) (l : List α) : List (List α) := chunksGo n l.length l

/-- The checkpoints persisted by `save_checkpoint`, one per completed batch
(the builder saves the merged state after every batch). -/
def checkpointTrace (provide : String → List ℚ) (st : BuildState) :
    List (List Transcript) → List CP
  | [] => []
  | b :: bs =>
    let st' := processBatch provide st b
    st'.cp :: checkpointTrace provide st' bs

/-- A full run of `main` in `embed.py` starting from the loaded checkpoint
`loaded` (the empty checkpoint when `--resume` is not given): filter out the
already-processed records, then process the rest in `BATCH_SIZE` batches.
The returned state carries the final embeddings dict and the recorded
dimension (the data written to `embeddings.json`). -/
def runBuild (provide : String → List ℚ) (loaded : CP) (transcripts : List Transcript) :
    BuildState :=
  (chunks BATCH_SIZE (toProcess loaded.processed_ids transcripts)).foldl
    (processBatch provide) { cp := loaded, dimension := none }

/-- The checkpoint on disk after the first `j` batches of an uninterrupted
run from the empty checkpoint — the state a crash after batch `j` leaves
behind. -/
def interruptedAfter (provide : String → List ℚ) (transcripts : List Transcript) (j : Nat) :
    CP :=
  (((chunks BATCH_SIZE (toProcess [] transcripts)).take j).foldl
    (processBatch provide) { cp := { processed_ids := [], embeddings := [] }, dimension := none }).cp

/-- The checkpoint invariant of the spec's data model: `processed_ids` is
exactly the key set of the embeddings mapping. -/
def CPInv (c : CP) : Prop :=
  c.processed_ids.toFinset = (c.embeddings.map Prod.fst).toFinset

instance (c : CP) : Decidable (CPInv c) :=
  inferInstanceAs (Decidable (_ = _))

/-! ## Similarity search engine (`main.py`) -/

/-- The request body of `/api/search` (`SearchRequest`, `main.py` lines
238-244), minus the free-text query, which reaches the scoring code only as
the provider-produced query vector. -/
structure SearchReq where
  limit : Int := 20
  offset : Int := 0
  split : Option String := none
  sentiment : Option String := none
  industry : Option String := none
deriving DecidableEq

/-- The loaded vector store (`embeddings.json` as read at startup):
`embedding_model`, `embedding_dimension` and the insertion-ordered
`embeddings_data` dict.  The search handler reads only `embeddings`;
`dimension` is loaded but never consulted by `search_transcripts`. -/
structure VectorStore where
  model : String := ""
  dimension : Nat := 0
  embeddings : List (String × List ℚ) := []
deriving DecidableEq

/-- One element of the `scores` list: the tuple
`(tid, score, transcript)` appended per surviving candidate. -/
structure ScoredEntry where
  transcript_id : String
  score : RVal
  transcript : Transcript
deriving DecidableEq

/-- One element of the response's `results` list (the rounding of `score` for
display is omitted; see the file docstring). -/
structure ResultEntry where
  transcript_id : String
  score : RVal
  split : String
  job_title : String
  industry : String
  sentiment : String
  snippet : String
deriving DecidableEq

/-- The `/api/search` response (minus the echoed query text). -/
structure SearchResponse where
  total : Nat
  offset : Int
  limit : Int
  results : List ResultEntry
deriving DecidableEq

/-- The filter block of the scoring loop (`main.py` lines 269-280), as the
condition for *keeping* a candidate.  Python truthiness makes a `None` or
empty-string filter inactive.  `split` is exact match, `sentiment`
case-insensitive exact match, `industry` case-insensitive substring
containment (`in` on `str`). -/
def passesFilters (sp se ind : Option String) (t : Transcript) : Bool :=
  (match sp with
   | none => true
   | some s => s = "" || t.split = s)
  && (match se with
      | none => true
      | some s => s = "" || strLower t.sentiment = strLower s)
  && (match ind with
      | none => true
      | some s => s = "" || decide ((strLower s).data <:+: (strLower t.industry).data))

/-- Whether a stored id survives the lookup-and-filter part of the loop:
`transcripts_data.get(tid)` must find a record and the record must pass the
metadata filters. -/
def candidatePasses (tdata : List (String × Transcript)) (sp se ind : Option String)
    (tid : String) : Bool :=
  match List.lookup tid tdata with
  | none => false
  | some t => passesFilters sp se ind t

/-- The scoring loop (`main.py` lines 263-283): iterate the embeddings dict in
order; skip ids without a transcript record and records failing a filter;
score the rest with `cosine_similarity`.  An exception from the scorer (shape
mismatch) propagates and aborts the whole request, modelled by the
short-circuiting `Except`. -/
def scoreCandidates (tdata : List (String × Transcript)) (query : List ℚ)
    (sp se ind : Option String) : List (String × List ℚ) → Except SErr (List ScoredEntry)
  | [] => .ok []
  | (tid, emb) :: rest =>
    match List.lookup tid tdata with
    | none => scoreCandidates tdata query sp se ind rest
    | some t =>
      if passesFilters sp se ind t then
        match cosine_similarity query emb with
        | .error e => .error e
        | .ok s =>
          match scoreCandidates tdata query sp se ind rest with
          | .error e => .error e
          | .ok tail => .ok ({ transcript_id := tid, score := s, transcript := t } :: tail)
      else scoreCandidates tdata query sp se ind rest

/-- Descending-by-score comparator for the sort model of
`scores.sort(key=lambda x: x[1], reverse=True)`. -/
def scoredLe (x y : ScoredEntry) : Bool := RVal.le y.score x.score

/-- Model of `scores.sort(key=lambda x: x[1], reverse=True)`: CPython's sort
is stable, and with `reverse=True` equal keys keep their original order;
`List.insertionSort` is stable, so it models this exactly (for `nan`-free
scores; see the file docstring). -/
def pySortDesc (l : List ScoredEntry) : List ScoredEntry :=
  List.insertionSort (fun x y => scoredLe x y = true) l

/-- Clamp a Python slice bound to `[0, n]`: negative indices count from the
end. -/
def pyClamp (n : Nat) (i : Int) : Nat :=
  if i < 0 then ((n : Int) + i).toNat else min n i.toNat

/-- Python list slice `l[a:b]`. -/
def pySlice (l : List α) (a b : Int) : List α :=
  (l.take (pyClamp l.length b)).drop (pyClamp l.length a)

/-- The snippet-part loop (`main.py` lines 297-303): before each message check
the running budget (`if char_count > 200: break`), then append the first 100
characters of the message and add their count. -/
def snippetParts : List Msg → Nat → List String
  | [], _ => []
  | m :: ms, cc =>
    if 200 < cc then []
    else
      let part := m.content.take 100
      part :: snippetParts ms (cc + part.length)

/-- Snippet generation (`main.py` lines 296-306): join the parts with
`" ... "`, hard-truncate to 250 characters, and append an ellipsis iff the
truncated string has exactly 250 characters. -/
def makeSnippet (messages : List Msg) : String :=
  let s := (String.intercalate " ... " (snippetParts messages 0)).take 250
  if s.length = 250 then s ++ "..." else s

/-- Build one response entry from a scored tuple (`main.py` lines 308-318). -/
def mkResult (e : ScoredEntry) : ResultEntry :=
  { transcript_id := e.transcript_id,
    score := e.score,
    split := e.transcript.split,
    job_title := e.transcript.job_title,
    industry := e.transcript.industry,
    sentiment := e.transcript.sentiment,
    snippet := makeSnippet e.transcript.messages }

/-- Model of the `/api/search` handler `search_transcripts` (`main.py` lines
247-326) from the point where the query vector is known: 503 if no embeddings
are loaded; score the store against the filters; sort by score descending
(stable); `total` is the pre-slice count; paginate with
`scores[offset : offset + limit]`. -/
def searchTranscripts (tdata : List (String × Transcript)) (store : VectorStore)
    (query : List ℚ) (req : SearchReq) : Except SErr SearchResponse :=
  if store.embeddings.isEmpty then .error .unavailable
  else
    match scoreCandidates tdata query req.split req.sentiment req.industry store.embeddings with
    | .error e => .error e
    | .ok scores =>
      let sorted := pySortDesc scores
      .ok ⟨sorted.length, req.offset, req.limit,
           (pySlice sorted req.offset (req.offset + req.limit)).map mkResult⟩

deriving instance DecidableEq for Except

/-! ## Helper lemmas: the score order -/

theorem rvalLe_refl (x : RVal) : RVal.le x x = true := by
  cases x <;> simp [RVal.le]

theorem rvalLe_trans {a b c : RVal} (h₁ : RVal.le a b = true) (h₂ : RVal.le b c = true) :
    RVal.le a c = true := by
  cases a <;> cases b <;> cases c <;> simp_all [RVal.le]
  exact le_trans h₁ h₂

theorem rvalLe_total (a b : RVal) : RVal.le a b || RVal.le b a := by
  cases a <;> cases b <;> simp [RVal.le]
  exact le_total _ _

theorem scoredLe_trans (a b c : ScoredEntry) (h₁ : scoredLe a b) (h₂ : scoredLe b c) :
    scoredLe a c :=
  rvalLe_trans h₂ h₁

theorem scoredLe_total (a b : ScoredEntry) : scoredLe a b || scoredLe b a := by
  simpa [scoredLe, Bool.or_comm] using rvalLe_total a.score b.score

/-! ## Helper lemmas: the sort model -/

instance : IsTotal ScoredEntry (fun x y => scoredLe x y = true) :=
  ⟨fun a b => Bool.or_eq_true_iff.mp (scoredLe_total a b)⟩

instance : IsTrans ScoredEntry (fun x y => scoredLe x y = true) :=
  ⟨scoredLe_trans⟩

theorem pySortDesc_sorted (l : List ScoredEntry) :
    (pySortDesc l).Pairwise (fun x y => scoredLe x y = true) :=
  List.sorted_insertionSort _ l

theorem pySortDesc_perm (l : List ScoredEntry) : List.Perm (pySortDesc l) l :=
  List.perm_insertionSort _ l

theorem pySortDesc_filter_stable (l : List ScoredEntry) (p : ScoredEntry → Bool)
    (hp : ∀ x y, p x = true → p y = true → scoredLe x y = true) :
    (pySortDesc l).filter p = l.filter p := by
  have hperm : List.Perm ((pySortDesc l).filter p) (l.filter p) := (pySortDesc_perm l).filter p
  have hsub : List.Sublist (l.filter p) (pySortDesc l) :=
    List.sublist_insertionSort
      (List.pairwise_of_forall_mem_list fun a ha b hb =>
        hp a b (List.mem_filter.mp ha).2 (List.mem_filter.mp hb).2)
      (List.filter_sublist l)
  have hsub2 : List.Sublist (l.filter p) ((pySortDesc l).filter p) := by
    have h2 := hsub.filter p
    simpa [List.filter_filter] using h2
  exact (hsub2.eq_of_length hperm.length_eq.symm).symm

/-! ## Helper lemmas: Python slices -/

theorem take_min_length (l : List α) (k : Nat) : l.take (min l.length k) = l.take k := by
  rcases Nat.le_total l.length k with h | h
  · rw [min_eq_left h, List.take_length, List.take_of_length_le h]
  · rw [min_eq_right h]

theorem pySlice_nonneg (l : List α) (a b : Int) (ha : 0 ≤ a) (hb : 0 ≤ b) :
    pySlice l a b = (l.take b.toNat).drop a.toNat := by
  unfold pySlice pyClamp
  rw [if_neg (by omega), if_neg (by omega), take_min_length]
  rcases Nat.le_total a.toNat l.length with h | h
  · rw [min_eq_right h]
  · have hl : (List.take b.toNat l).length ≤ l.length := by
      simp [List.length_take]
    rw [min_eq_left h, List.drop_of_length_le hl, List.drop_of_length_le (le_trans hl h)]

/-- The response produced by a successful search, in closed form. -/
theorem searchTranscripts_ok (tdata : List (String × Transcript)) (store : VectorStore)
    (q : List ℚ) (req : SearchReq) (entries : List ScoredEntry)
    (hne : store.embeddings ≠ [])
    (h : scoreCandidates tdata q req.split req.sentiment req.industry store.embeddings
          = .ok entries) :
    searchTranscripts tdata store q req =
      .ok ⟨(pySortDesc entries).length, req.offset, req.limit,
           (pySlice (pySortDesc entries) req.offset (req.offset + req.limit)).map mkResult⟩ := by
  unfold searchTranscripts
  rw [if_neg (by simpa using hne), h]

/-! ## Fixtures for counterexamples and witnesses -/

/-- Minimal transcript record with id `"a"`. -/
def tRecA : Transcript := { transcript_id := "a", split := "workforce" }

/-- Minimal transcript record with id `"b"`. -/
def tRecB : Transcript := { transcript_id := "b", split := "workforce" }

/-- Transcript table used by the tie-break scenario. -/
def tdataC3 : List (String × Transcript) := [("b", tRecB), ("a", tRecA)]

/-- Store whose iteration order is `"b"` before `"a"`, with identical vectors,
so both candidates get the same score against the query `[1, 0]`. -/
def storeC3 : VectorStore := { dimension := 2, embeddings := [("b", [1, 0]), ("a", [1, 0])] }

/-- The scored entries of the tie-break scenario, computed by the model. -/
def entriesC3 : List ScoredEntry :=
  (scoreCandidates tdataC3 [1, 0] none none none storeC3.embeddings).toOption.getD []

/-- The response of the tie-break scenario, computed by the model. -/
def respC3 : SearchResponse :=
  (searchTranscripts tdataC3 storeC3 [1, 0] {}).toOption.getD ⟨0, 0, 0, []⟩

/-- C3, counterexample: two candidates with equal score (both vectors equal to
the query) come back in the store's iteration order `["b", "a"]`, which is not
ascending ID order ("b" is not ≤ "a").  The spec's "ties broken by ascending
ID" does not hold of `search_transcripts`, whose sort key is the score only.
-/
theorem c3_counterexample :
    (searchTranscripts tdataC3 storeC3 [1, 0] {}).toOption.map
        (fun r => r.results.map (fun e => (e.transcript_id, e.score)))
      = some [("b", RVal.val 1), ("a", RVal.val 1)]
    ∧ ¬ ("b" ≤ "a") := by
  with_unfolding_all decide

/-- C3 (amended): for every transcript table, store, query and request for
which candidate scoring succeeds with no NaN score (NaN-free inputs are the
only ones on which CPython's sort order is specified), the result sequence of
`search` is sorted by score in descending order, and candidates with equal
score appear in the ranking in the order their entries occur in the store
(Python's sort is stable) — not necessarily in ascending ID order.  The
stability conjunct says: for every score value, restricting the ranking to
that score yields exactly the store-ordered scored entries with that score. -/
theorem c3_sorted_desc_stable (tdata : List (String × Transcript)) (store : VectorStore)
    (q : List ℚ) (req : SearchReq) (entries : List ScoredEntry) (resp : SearchResponse)
    (hsc : scoreCandidates tdata q req.split req.sentiment req.industry store.embeddings
            = .ok entries)
    (_hnan : ∀ e ∈ entries, e.score ≠ RVal.nan)
    (hs : searchTranscripts tdata store q req = .ok resp) :
    resp.results.Pairwise (fun x y => RVal.le y.score x.score = true)
    ∧ ∀ s : RVal, (pySortDesc entries).filter (fun e => decide (e.score = s))
        = entries.filter (fun e => decide (e.score = s)) := by
  have hne : store.embeddings ≠ [] := by
    intro hempty
    rw [searchTranscripts, if_pos (by simp [hempty])] at hs
    exact Except.noConfusion hs
  rw [searchTranscripts_ok tdata store q req entries hne hsc] at hs
  have hresp : resp = ⟨(pySortDesc entries).length, req.offset, req.limit,
      (pySlice (pySortDesc entries) req.offset (req.offset + req.limit)).map mkResult⟩ :=
    (Except.ok.inj hs).symm
  constructor
  · rw [hresp]
    have hsorted := pySortDesc_sorted entries
    have hslice : List.Sublist (pySlice (pySortDesc entries) req.offset
        (req.offset + req.limit)) (pySortDesc entries) :=
      (List.drop_sublist _ _).trans (List.take_sublist _ _)
    have hpair := hsorted.sublist hslice
    rw [List.pairwise_map]
    exact hpair.imp (fun {x y} h => by simpa [scoredLe, mkResult] using h)
  · intro s
    refine pySortDesc_filter_stable entries _ (fun x y hx hy => ?_)
    have hxs : x.score = s := of_decide_eq_true hx
    have hys : y.score = s := of_decide_eq_true hy
    simp [scoredLe, hxs, hys, rvalLe_refl]

/-- Witness for the amended C3 theorem at the concrete tie-break scenario. -/
theorem c3_sorted_desc_stable_witness :
    respC3.results.Pairwise (fun x y => RVal.le y.score x.score = true)
    ∧ ∀ s : RVal, (pySortDesc entriesC3).filter (fun e => decide (e.score = s))
        = entriesC3.filter (fun e => decide (e.score = s)) :=
  c3_sorted_desc_stable tdataC3 storeC3 [1, 0] {} entriesC3 respC3
    (by with_unfolding_all decide) (by with_unfolding_all decide) (by with_unfolding_all decide)

/-! ## Helper lemmas: the scoring loop -/

theorem scoreCandidates_all_skipped (tdata : List (String × Transcript)) (q : List ℚ)
    (sp se ind : Option String) (edata : List (String × List ℚ))
    (h : ∀ p ∈ edata, candidatePasses tdata sp se ind p.1 = false) :
    scoreCandidates tdata q sp se ind edata = .ok [] := by
  induction edata with
  | nil => rfl
  | cons p rest ih =>
    obtain ⟨tid, emb⟩ := p
    have hp := h (tid, emb) (List.mem_cons_self _ _)
    have hrest := ih fun x hx => h x (List.mem_cons_of_mem _ hx)
    simp only [scoreCandidates]
    simp only [candidatePasses] at hp
    cases hl : List.lookup tid tdata with
    | none => exact hrest
    | some t =>
      rw [hl] at hp
      dsimp only at hp ⊢
      rw [if_neg (by simp [hp]) ]
      exact hrest

theorem scoreCandidates_dim_error (tdata : List (String × Transcript)) (q : List ℚ)
    (sp se ind : Option String) (edata : List (String × List ℚ)) (D : Nat)
    (hD : ∀ p ∈ edata, (p.2 : List ℚ).length = D)
    (hq : q.length ≠ D)
    (hsome : ∃ p ∈ edata, candidatePasses tdata sp se ind p.1 = true) :
    scoreCandidates tdata q sp se ind edata = .error .dimensionMismatch := by
  induction edata with
  | nil =>
    obtain ⟨p, hp, -⟩ := hsome
    exact absurd hp (List.not_mem_nil p)
  | cons p rest ih =>
    obtain ⟨tid, emb⟩ := p
    have hlen : emb.length = D := hD (tid, emb) (List.mem_cons_self _ _)
    have hDrest := fun x hx => hD x (List.mem_cons_of_mem _ hx)
    simp only [scoreCandidates]
    cases hl : List.lookup tid tdata with
    | none =>
      dsimp only
      refine ih hDrest ?_
      obtain ⟨x, hx, hpass⟩ := hsome
      rcases List.mem_cons.mp hx with heq | hx2
      · subst heq
        rw [candidatePasses, hl] at hpass
        exact absurd hpass (by simp)
      · exact ⟨x, hx2, hpass⟩
    | some t =>
      dsimp only
      by_cases hf : passesFilters sp se ind t = true
      · have hcos : cosine_similarity q emb = .error .dimensionMismatch := by
          rw [cosine_similarity, if_neg (by rw [hlen]; exact hq)]
        rw [if_pos hf, hcos]
      · rw [if_neg hf]
        refine ih hDrest ?_
        obtain ⟨x, hx, hpass⟩ := hsome
        rcases List.mem_cons.mp hx with heq | hx2
        · subst heq
          rw [candidatePasses, hl] at hpass
          exact absurd hpass hf
        · exact ⟨x, hx2, hpass⟩

theorem scoreCandidates_ok_of_lengths (tdata : List (String × Transcript)) (q : List ℚ)
    (sp se ind : Option String) (edata : List (String × List ℚ))
    (hall : ∀ p ∈ edata, q.length = (p.2 : List ℚ).length) :
    ∃ entries, scoreCandidates tdata q sp se ind edata = .ok entries := by
  induction edata with
  | nil => exact ⟨[], rfl⟩
  | cons p rest ih =>
    obtain ⟨tid, emb⟩ := p
    obtain ⟨tail, htail⟩ := ih fun x hx => hall x (List.mem_cons_of_mem _ hx)
    have hlen : q.length = emb.length := hall (tid, emb) (List.mem_cons_self _ _)
    simp only [scoreCandidates]
    cases hl : List.lookup tid tdata with
    | none => exact ⟨tail, htail⟩
    | some t =>
      dsimp only
      by_cases hf : passesFilters sp se ind t = true
      · rw [if_pos hf]
        have hsc : ∃ sc, cosine_similarity q emb = .ok sc := by
          rw [cosine_similarity, if_pos hlen]
          split
          · exact ⟨.nan, rfl⟩
          · exact ⟨_, rfl⟩
        obtain ⟨sc, hsc⟩ := hsc
        rw [hsc, htail]
        exact ⟨_, rfl⟩
      · rw [if_neg hf]
        exact ⟨tail, htail⟩

theorem scoreCandidates_mem (tdata : List (String × Transcript)) (q : List ℚ)
    (sp se ind : Option String) (edata : List (String × List ℚ))
    (entries : List ScoredEntry) (tid : String) (emb : List ℚ) (t : Transcript) (sc : RVal)
    (h : scoreCandidates tdata q sp se ind edata = .ok entries)
    (hmem : (tid, emb) ∈ edata)
    (hl : List.lookup tid tdata = some t)
    (hf : passesFilters sp se ind t = true)
    (hcos : cosine_similarity q emb = .ok sc) :
    ∃ e ∈ entries, e.transcript_id = tid ∧ e.score = sc := by
  induction edata generalizing entries with
  | nil => cases hmem
  | cons p rest ih =>
    obtain ⟨tid2, emb2⟩ := p
    simp only [scoreCandidates] at h
    rcases List.mem_cons.mp hmem with heq | hmem2
    · obtain ⟨h1, h2⟩ := Prod.mk.injEq .. ▸ heq
      subst h1
      subst h2
      rw [hl] at h
      dsimp only at h
      rw [if_pos hf, hcos] at h
      cases htail : scoreCandidates tdata q sp se ind rest with
      | error e => rw [htail] at h; cases h
      | ok tail =>
        rw [htail] at h
        dsimp only at h
        obtain rfl := Except.ok.inj h
        exact ⟨_, List.mem_cons_self _ _, rfl, rfl⟩
    · cases hl2 : List.lookup tid2 tdata with
      | none =>
        rw [hl2] at h
        exact ih _ h hmem2
      | some t2 =>
        rw [hl2] at h
        dsimp only at h
        by_cases hf2 : passesFilters sp se ind t2 = true
        · rw [if_pos hf2] at h
          cases hcos2 : cosine_similarity q emb2 with
          | error e => rw [hcos2] at h; cases h
          | ok sc2 =>
            rw [hcos2] at h
            cases htail : scoreCandidates tdata q sp se ind rest with
            | error e => rw [htail] at h; cases h
            | ok tail =>
              rw [htail] at h
              dsimp only at h
              obtain rfl := Except.ok.inj h
              obtain ⟨e, he, he1, he2⟩ := ih _ htail hmem2
              exact ⟨e, List.mem_cons_of_mem _ he, he1, he2⟩
        · rw [if_neg hf2] at h
          exact ih _ h hmem2

/-! ## Claim C4: degenerate (zero-norm) vectors -/

/-- C4, counterexample: for a zero query vector against a unit stored vector,
the scorer returns IEEE NaN (the float division `0.0/0.0`), not the value 0
the claim states; numpy raises no error but the result is NaN. -/
theorem c4_counterexample :
    cosine_similarity [0, 0] [1, 0] = .ok RVal.nan
    ∧ cosine_similarity [0, 0] [1, 0] ≠ .ok (RVal.val 0) := by
  with_unfolding_all decide

/-- C4 (amended): when either vector of a scored pair has norm exactly 0, the
scorer returns NaN — not an exception, but also not 0 — and if every stored
vector has the query's length, the scoring loop completes (no per-candidate
abort) and the degenerate candidate appears in the ranked sequence with score
NaN. -/
theorem c4_degenerate_scored_nan (tdata : List (String × Transcript)) (store : VectorStore)
    (q : List ℚ) (sp se ind : Option String) (tid : String) (emb : List ℚ) (t : Transcript)
    (hall : ∀ p ∈ store.embeddings, q.length = (p.2 : List ℚ).length)
    (hmem : (tid, emb) ∈ store.embeddings)
    (hl : List.lookup tid tdata = some t)
    (hf : passesFilters sp se ind t = true)
    (hz : dot q q = 0 ∨ dot emb emb = 0) :
    cosine_similarity q emb = .ok RVal.nan
    ∧ ∃ entries, scoreCandidates tdata q sp se ind store.embeddings = .ok entries
        ∧ ∃ e ∈ pySortDesc entries, e.transcript_id = tid ∧ e.score = RVal.nan := by
  have hlen : q.length = emb.length := hall (tid, emb) hmem
  have hcos : cosine_similarity q emb = .ok RVal.nan := by
    rw [cosine_similarity, if_pos hlen, if_pos hz]
  refine ⟨hcos, ?_⟩
  obtain ⟨entries, hentries⟩ := scoreCandidates_ok_of_lengths tdata q sp se ind _ hall
  refine ⟨entries, hentries, ?_⟩
  obtain ⟨e, he, h1, h2⟩ :=
    scoreCandidates_mem tdata q sp se ind _ entries tid emb t RVal.nan
      hentries hmem hl hf hcos
  exact ⟨e, ((pySortDesc_perm entries).mem_iff).mpr he, h1, h2⟩

/-- Transcript record with id `"z"`, used as the degenerate candidate. -/
def tRecZ : Transcript := { transcript_id := "z", split := "workforce" }

/-- Witness for the amended C4 theorem: a store holding the zero vector for
`"z"` and a unit vector for `"a"`, queried with `[1, 0]`. -/
theorem c4_degenerate_scored_nan_witness :
    cosine_similarity [1, 0] [0, 0] = .ok RVal.nan
    ∧ ∃ entries,
        scoreCandidates [("z", tRecZ), ("a", tRecA)] [1, 0] none none none
          (VectorStore.mk "" 2 [("z", [0, 0]), ("a", [1, 0])]).embeddings = .ok entries
        ∧ ∃ e ∈ pySortDesc entries, e.transcript_id = "z" ∧ e.score = RVal.nan :=
  c4_degenerate_scored_nan [("z", tRecZ), ("a", tRecA)]
    (VectorStore.mk "" 2 [("z", [0, 0]), ("a", [1, 0])]) [1, 0] none none none
    "z" [0, 0] tRecZ
    (by with_unfolding_all decide)
    (by with_unfolding_all decide)
    (by with_unfolding_all decide)
    (by with_unfolding_all decide)
    (by with_unfolding_all decide)

/-! ## Claim C5: query/store dimension mismatch -/

/-- Transcript table for the C5 counterexample. -/
def tdataC5 : List (String × Transcript) := [("a", tRecA)]

/-- Dimension-3 store for the C5 counterexample. -/
def storeC5 : VectorStore := { dimension := 3, embeddings := [("a", [1, 0, 0])] }

/-- C5, counterexample: a 2-length query against the dimension-3 store
succeeds with an empty result — no `DimensionMismatch` — when the only
candidate is removed by a filter, because the length check happens per
candidate inside the scorer, which is then never invoked. -/
theorem c5_counterexample :
    (2 : Nat) ≠ storeC5.dimension
    ∧ searchTranscripts tdataC5 storeC5 [1, 0] { split := some "creatives" }
        = .ok ⟨0, 0, 20, []⟩ := by
  with_unfolding_all decide

/-- C5 (amended): if the query vector's length differs from the store's
declared dimension, every stored vector has the declared dimension (the
data-model invariant), and at least one candidate survives lookup and the
metadata filters, then search fails with `DimensionMismatch` (numpy's shape
error); it never truncates or pads vectors to produce a score.  When no
candidate survives, the scorer is never reached and search returns an empty
result instead. -/
theorem c5_dimension_mismatch (tdata : List (String × Transcript)) (store : VectorStore)
    (q : List ℚ) (req : SearchReq)
    (hD : ∀ p ∈ store.embeddings, (p.2 : List ℚ).length = store.dimension)
    (hq : q.length ≠ store.dimension)
    (hsome : ∃ p ∈ store.embeddings,
        candidatePasses tdata req.split req.sentiment req.industry p.1 = true) :
    searchTranscripts tdata store q req = .error .dimensionMismatch := by
  have hne : store.embeddings ≠ [] := by
    rintro hempty
    obtain ⟨x, hx, -⟩ := hsome
    rw [hempty] at hx
    exact List.not_mem_nil x hx
  have herr := scoreCandidates_dim_error tdata q req.split req.sentiment req.industry
    store.embeddings store.dimension hD hq hsome
  rw [searchTranscripts, if_neg (by simpa using hne), herr]

/-- Witness for the amended C5 theorem: dimension-3 store with one passing
candidate, 2-length query. -/
theorem c5_dimension_mismatch_witness :
    searchTranscripts tdataC5 storeC5 [1, 0] {} = .error .dimensionMismatch :=
  c5_dimension_mismatch tdataC5 storeC5 [1, 0] {}
    (by with_unfolding_all decide)
    (by with_unfolding_all decide)
    ⟨("a", [1, 0, 0]), by with_unfolding_all decide, by with_unfolding_all decide⟩

/-! ## Claim C9: empty candidate set and empty store -/

/-- C9, counterexample: with a store that has no entries, search raises the
service-unavailable error (HTTP 503, `embeddings_data` falsy) instead of
returning an empty result as the claim states. -/
theorem c9_counterexample :
    searchTranscripts [("a", tRecA)] { dimension := 3, embeddings := [] } [1, 0, 0] {}
      = .error .unavailable := rfl

/-- C9 (amended): search returns an empty result (`total = 0`, no error) when
the candidate set after lookup and filtering is empty but the store itself is
nonempty; a store with no entries is indistinguishable from "no embeddings
loaded" and yields the service-unavailable error instead. -/
theorem c9_empty_after_filter (tdata : List (String × Transcript)) (store : VectorStore)
    (q : List ℚ) (req : SearchReq)
    (hne : store.embeddings ≠ [])
    (hskip : ∀ p ∈ store.embeddings,
        candidatePasses tdata req.split req.sentiment req.industry p.1 = false) :
    searchTranscripts tdata store q req = .ok ⟨0, req.offset, req.limit, []⟩ := by
  have h0 := scoreCandidates_all_skipped tdata q req.split req.sentiment req.industry
    store.embeddings hskip
  rw [searchTranscripts_ok tdata store q req [] hne h0]
  simp [pySortDesc, pySlice, pyClamp]

/-- Witness for the amended C9 theorem: nonempty store whose only candidate is
filtered out by a split filter. -/
theorem c9_empty_after_filter_witness :
    searchTranscripts tdataC5 storeC5 [1, 0, 0] { split := some "creatives" }
      = .ok ⟨0, 0, 20, []⟩ :=
  c9_empty_after_filter tdataC5 storeC5 [1, 0, 0] { split := some "creatives" }
    (by with_unfolding_all decide)
    (by with_unfolding_all decide)

/-! ## Claim C7: the metadata filter -/

/-- The ids kept by the scoring loop are exactly the store keys that pass
lookup and the metadata filters, in store order. -/
theorem scoreCandidates_ids (tdata : List (String × Transcript)) (q : List ℚ)
    (sp se ind : Option String) (edata : List (String × List ℚ))
    (entries : List ScoredEntry)
    (h : scoreCandidates tdata q sp se ind edata = .ok entries) :
    entries.map (fun e => e.transcript_id)
      = (edata.map Prod.fst).filter (candidatePasses tdata sp se ind) := by
  induction edata generalizing entries with
  | nil =>
    obtain rfl := (Except.ok.inj h).symm
    rfl
  | cons p rest ih =>
    obtain ⟨tid2, emb2⟩ := p
    simp only [scoreCandidates] at h
    simp only [List.map_cons, List.filter_cons]
    cases hl2 : List.lookup tid2 tdata with
    | none =>
      rw [hl2] at h
      have hcp : candidatePasses tdata sp se ind tid2 = false := by
        rw [candidatePasses, hl2]
      rw [hcp]
      exact ih _ h
    | some t2 =>
      rw [hl2] at h
      dsimp only at h
      have hcp : candidatePasses tdata sp se ind tid2 = passesFilters sp se ind t2 := by
        rw [candidatePasses, hl2]
      by_cases hf2 : passesFilters sp se ind t2 = true
      · rw [if_pos hf2] at h
        cases hcos2 : cosine_similarity q emb2 with
        | error e => rw [hcos2] at h; cases h
        | ok sc2 =>
          rw [hcos2] at h
          cases htail : scoreCandidates tdata q sp se ind rest with
          | error e => rw [htail] at h; cases h
          | ok tail =>
            rw [htail] at h
            dsimp only at h
            obtain rfl := (Except.ok.inj h).symm
            rw [hcp, hf2]
            simp only [List.map_cons, if_true]
            exact congrArg (List.cons tid2) (ih _ htail)
      · rw [if_neg hf2] at h
        rw [hcp, if_neg hf2]
        exact ih _ h

/-- Transcript whose sentiment holds the unknown sentinel. -/
def tRecUnk : Transcript :=
  { transcript_id := "u", split := "workforce", sentiment := "UNKNOWN" }

/-- C7, counterexample: a record whose `sentiment` is the unknown sentinel
`"UNKNOWN"` matches the non-empty sentiment filter `"unknown"` — the filter
compares the sentinel case-insensitively like any ordinary value, so
"a record whose field holds the unknown sentinel never matches any non-empty
filter on that field" is false. -/
theorem c7_counterexample :
    tRecUnk.sentiment = "UNKNOWN"
    ∧ passesFilters none (some "unknown") none tRecUnk = true := by
  with_unfolding_all decide

/-- C7 (amended): the metadata filter admits exactly the records satisfying
all supplied predicates — `split` by exact string equality, `sentiment` by
case-insensitive exact equality, `industry` by case-insensitive substring
containment; an absent (or empty-string, which Python truthiness treats as
absent) filter admits every record; a record whose field is missing (read as
`""`) matches no non-empty filter, but the literal sentinel string
`"UNKNOWN"` is compared like any other value and can match.  At search level,
the scored ids are exactly the store keys whose record passes. -/
theorem c7_filter_characterisation (sp se ind : Option String) (t : Transcript)
    (tdata : List (String × Transcript)) (q : List ℚ) (edata : List (String × List ℚ))
    (entries : List ScoredEntry)
    (h : scoreCandidates tdata q sp se ind edata = .ok entries) :
    (passesFilters sp se ind t = true ↔
      (∀ s, sp = some s → s ≠ "" → t.split = s)
      ∧ (∀ s, se = some s → s ≠ "" → strLower t.sentiment = strLower s)
      ∧ (∀ s, ind = some s → s ≠ "" → (strLower s).data <:+: (strLower t.industry).data))
    ∧ entries.map (fun e => e.transcript_id)
        = (edata.map Prod.fst).filter (candidatePasses tdata sp se ind) := by
  refine ⟨?_, scoreCandidates_ids tdata q sp se ind edata entries h⟩
  simp only [passesFilters, Bool.and_eq_true]
  constructor
  · rintro ⟨⟨h1, h2⟩, h3⟩
    refine ⟨?_, ?_, ?_⟩
    · rintro s rfl hs
      rcases Bool.or_eq_true_iff.mp h1 with he | he
      · exact absurd (by simpa using he) hs
      · simpa using he
    · rintro s rfl hs
      rcases Bool.or_eq_true_iff.mp h2 with he | he
      · exact absurd (by simpa using he) hs
      · simpa using he
    · rintro s rfl hs
      rcases Bool.or_eq_true_iff.mp h3 with he | he
      · exact absurd (by simpa using he) hs
      · simpa using he
  · rintro ⟨h1, h2, h3⟩
    refine ⟨⟨?_, ?_⟩, ?_⟩
    · cases sp with
      | none => rfl
      | some s =>
        by_cases hs : s = ""
        · simp [hs]
        · simp [hs, h1 s rfl hs]
    · cases se with
      | none => rfl
      | some s =>
        by_cases hs : s = ""
        · simp [hs]
        · simp [hs, h2 s rfl hs]
    · cases ind with
      | none => rfl
      | some s =>
        by_cases hs : s = ""
        · simp [hs]
        · simp [hs, h3 s rfl hs]

/-- Witness for the amended C7 theorem, applied to the sentinel-valued record
and a one-entry store. -/
theorem c7_filter_characterisation_witness :
    (passesFilters none (some "unknown") none tRecUnk = true ↔
      (∀ s, (none : Option String) = some s → s ≠ "" → tRecUnk.split = s)
      ∧ (∀ s, (some "unknown" : Option String) = some s → s ≠ "" →
          strLower tRecUnk.sentiment = strLower s)
      ∧ (∀ s, (none : Option String) = some s → s ≠ "" →
          (strLower s).data <:+: (strLower tRecUnk.industry).data))
    ∧ ((scoreCandidates [("u", tRecUnk)] [1] none (some "unknown") none
          [("u", [1])]).toOption.getD []).map (fun e => e.transcript_id)
        = ([("u", [(1 : ℚ)])].map Prod.fst).filter
            (candidatePasses [("u", tRecUnk)] none (some "unknown") none) :=
  c7_filter_characterisation none (some "unknown") none tRecUnk
    [("u", tRecUnk)] [1] [("u", [1])]
    ((scoreCandidates [("u", tRecUnk)] [1] none (some "unknown") none
        [("u", [1])]).toOption.getD [])
    (by with_unfolding_all decide)

/-! ## Claim C8: pagination is a partition of a prefix -/

/-- C8: over an unchanged store and query, `search(offset=0, limit=L)`
followed by `search(offset=L, limit=L)` (L > 0) yields two successful
responses whose result lists concatenate to exactly the first `2·L` entries of
the full ranked sequence — no overlap, no gap — and both report as `total`
the full matched-and-filtered count before slicing. -/
theorem c8_pagination (tdata : List (String × Transcript)) (store : VectorStore)
    (q : List ℚ) (sp se ind : Option String) (L : Int) (entries : List ScoredEntry)
    (hL : 0 < L)
    (hne : store.embeddings ≠ [])
    (h : scoreCandidates tdata q sp se ind store.embeddings = .ok entries) :
    ∃ r₁ r₂ : SearchResponse,
      searchTranscripts tdata store q ⟨L, 0, sp, se, ind⟩ = .ok r₁
      ∧ searchTranscripts tdata store q ⟨L, L, sp, se, ind⟩ = .ok r₂
      ∧ r₁.results ++ r₂.results
          = ((pySortDesc entries).take (L.toNat + L.toNat)).map mkResult
      ∧ r₁.total = entries.length ∧ r₂.total = entries.length := by
  refine ⟨_, _,
    searchTranscripts_ok tdata store q ⟨L, 0, sp, se, ind⟩ entries hne h,
    searchTranscripts_ok tdata store q ⟨L, L, sp, se, ind⟩ entries hne h,
    ?_, ?_, ?_⟩
  · show (pySlice (pySortDesc entries) 0 (0 + L)).map mkResult
        ++ (pySlice (pySortDesc entries) L (L + L)).map mkResult
        = ((pySortDesc entries).take (L.toNat + L.toNat)).map mkResult
    rw [pySlice_nonneg _ _ _ le_rfl (by omega), pySlice_nonneg _ _ _ (by omega) (by omega)]
    have h2L : (L + L).toNat = L.toNat + L.toNat := by omega
    have h0L : (0 + L).toNat = L.toNat := by omega
    rw [h2L, h0L, Int.toNat_zero, List.drop_zero, ← List.map_append]
    have htake : (pySortDesc entries).take L.toNat
        = ((pySortDesc entries).take (L.toNat + L.toNat)).take L.toNat := by
      rw [List.take_take, min_eq_left (by omega)]
    rw [htake, List.take_append_drop]
  · show (pySortDesc entries).length = entries.length
    exact (pySortDesc_perm entries).length_eq
  · show (pySortDesc entries).length = entries.length
    exact (pySortDesc_perm entries).length_eq

/-- Store for the C8 witness: two candidates with distinct scores against the
query `[1, 0]`. -/
def storeC8 : VectorStore := { dimension := 2, embeddings := [("b", [1, 0]), ("a", [0, 1])] }

/-- Witness for C8 at a concrete two-candidate store with `L = 1`. -/
theorem c8_pagination_witness :
    ∃ r₁ r₂ : SearchResponse,
      searchTranscripts tdataC3 storeC8 [1, 0] ⟨1, 0, none, none, none⟩ = .ok r₁
      ∧ searchTranscripts tdataC3 storeC8 [1, 0] ⟨1, 1, none, none, none⟩ = .ok r₂
      ∧ r₁.results ++ r₂.results
          = ((pySortDesc ((scoreCandidates tdataC3 [1, 0] none none none
                storeC8.embeddings).toOption.getD [])).take
              ((1 : Int).toNat + (1 : Int).toNat)).map mkResult
      ∧ r₁.total = ((scoreCandidates tdataC3 [1, 0] none none none
            storeC8.embeddings).toOption.getD []).length
      ∧ r₂.total = ((scoreCandidates tdataC3 [1, 0] none none none
            storeC8.embeddings).toOption.getD []).length :=
  c8_pagination tdataC3 storeC8 [1, 0] none none none 1
    ((scoreCandidates tdataC3 [1, 0] none none none storeC8.embeddings).toOption.getD [])
    (by decide)
    (by with_unfolding_all decide)
    (by with_unfolding_all decide)

/-! ## Helper lemmas: the builder state -/

theorem contains_iff_mem (s : List String) (k : String) : s.contains k = true ↔ k ∈ s :=
  List.elem_iff

theorem mem_setInsert (x k : String) (s : List String) :
    x ∈ setInsert k s ↔ x = k ∨ x ∈ s := by
  by_cases hc : s.contains k
  · rw [setInsert, if_pos hc]
    have hk : k ∈ s := (contains_iff_mem s k).mp hc
    constructor
    · exact Or.inr
    · rintro (rfl | hx)
      · exact hk
      · exact hx
  · rw [setInsert, if_neg hc]
    simp [List.mem_append, or_comm]

theorem mem_dictInsert_keys (x k : String) (v : List ℚ) (d : List (String × List ℚ)) :
    x ∈ (dictInsert k v d).map Prod.fst ↔ x = k ∨ x ∈ d.map Prod.fst := by
  induction d with
  | nil => simp [dictInsert]
  | cons p rest ih =>
    obtain ⟨a, b⟩ := p
    rw [dictInsert]
    by_cases hak : a = k
    · subst hak
      rw [if_pos rfl]
      simp
    · rw [if_neg hak]
      simp only [List.map_cons, List.mem_cons, ih]
      tauto

theorem CPInv_embedOne (provide : String → List ℚ) (c : CP) (t : Transcript)
    (h : CPInv c) : CPInv (embedOne provide c t) := by
  have hmem : ∀ x, x ∈ c.processed_ids ↔ x ∈ c.embeddings.map Prod.fst := by
    intro x
    rw [← List.mem_toFinset, h, List.mem_toFinset]
  refine Finset.ext fun x => ?_
  simp only [embedOne, List.mem_toFinset]
  rw [mem_setInsert, mem_dictInsert_keys, hmem]

theorem CPInv_foldl (provide : String → List ℚ) (c : CP) (l : List Transcript)
    (h : CPInv c) : CPInv (l.foldl (embedOne provide) c) := by
  induction l generalizing c with
  | nil => exact h
  | cons t rest ih => exact ih _ (CPInv_embedOne provide c t h)

theorem CPInv_processBatch (provide : String → List ℚ) (st : BuildState)
    (b : List Transcript) (h : CPInv st.cp) : CPInv (processBatch provide st b).cp :=
  CPInv_foldl provide st.cp b h

/-! ## Claim C1: the checkpoint invariant -/

/-- C1: in a Builder run whose loaded checkpoint satisfies the invariant
(the empty checkpoint trivially does), every checkpoint persisted by
`save_checkpoint` — one per completed batch — again has `processed_ids`
exactly equal to the key set of its embeddings mapping, because the merge
loop adds each transcript id to both collections together. -/
theorem c1_checkpoint_invariant (provide : String → List ℚ) (loaded : CP)
    (records : List Transcript) (h : CPInv loaded) :
    ∀ c ∈ checkpointTrace provide { cp := loaded, dimension := none }
        (chunks BATCH_SIZE (toProcess loaded.processed_ids records)), CPInv c := by
  have main : ∀ (bs : List (List Transcript)) (st : BuildState), CPInv st.cp →
      ∀ c ∈ checkpointTrace provide st bs, CPInv c := by
    intro bs
    induction bs with
    | nil =>
      intro st _ c hc
      cases hc
    | cons b rest ih =>
      intro st hst c hc
      simp only [checkpointTrace] at hc
      rcases List.mem_cons.mp hc with rfl | hc2
      · exact CPInv_processBatch provide st b hst
      · exact ih _ (CPInv_processBatch provide st b hst) c hc2
  exact main _ _ h

/-- Witness for C1: a one-record run from the empty checkpoint; the single
saved checkpoint holds id `"a"` in both collections. -/
theorem c1_checkpoint_invariant_witness :
    CPInv { processed_ids := ["a"], embeddings := [("a", [1])] } :=
  c1_checkpoint_invariant (fun _ => [1]) { processed_ids := [], embeddings := [] }
    [tRecA] (by decide)
    { processed_ids := ["a"], embeddings := [("a", [1])] }
    (by with_unfolding_all decide)

/-! ## Helper lemmas: batching -/

theorem drop_pred_eq_drop (n : Nat) (hn : 0 < n) (x : α) (xs : List α) :
    xs.drop (n - 1) = (x :: xs).drop n := by
  cases n with
  | zero => omega
  | succ m => rfl

theorem chunksGo_flatten (n : Nat) (hn : 0 < n) (fuel : Nat) (l : List α)
    (hf : l.length ≤ fuel) : (chunksGo n fuel l).flatten = l := by
  induction fuel generalizing l with
  | zero =>
    cases l with
    | nil => rfl
    | cons x xs => simp at hf
  | succ f ih =>
    cases l with
    | nil => rfl
    | cons x xs =>
      have hf2 : xs.length ≤ f := by simpa using hf
      rw [chunksGo, List.flatten_cons, drop_pred_eq_drop n hn x xs,
        ih _ (by simp [List.length_drop]; omega)]
      exact List.take_append_drop n (x :: xs)

theorem chunks_flatten (n : Nat) (hn : 0 < n) (l : List α) : (chunks n l).flatten = l :=
  chunksGo_flatten n hn l.length l le_rfl

theorem chunksGo_take_flatten (n : Nat) (hn : 0 < n) (fuel : Nat) (j : Nat) (l : List α)
    (hf : l.length ≤ fuel) :
    ((chunksGo n fuel l).take j).flatten = l.take (j * n) := by
  induction fuel generalizing l j with
  | zero =>
    cases l with
    | nil => simp [chunksGo]
    | cons x xs => simp at hf
  | succ f ih =>
    cases l with
    | nil => simp [chunksGo]
    | cons x xs =>
      cases j with
      | zero => simp
      | succ j =>
        have hf2 : xs.length ≤ f := by simpa using hf
        rw [chunksGo, List.take_succ_cons, List.flatten_cons,
          drop_pred_eq_drop n hn x xs,
          ih j _ (by simp [List.length_drop]; omega)]
        have harith : (j + 1) * n = n + j * n := by ring
        rw [harith, List.take_add]

theorem chunks_take_flatten (n : Nat) (hn : 0 < n) (j : Nat) (l : List α) :
    ((chunks n l).take j).flatten = l.take (j * n) :=
  chunksGo_take_flatten n hn l.length j l le_rfl

theorem foldl_processBatch_cp (provide : String → List ℚ) (bs : List (List Transcript))
    (st : BuildState) :
    (bs.foldl (processBatch provide) st).cp = bs.flatten.foldl (embedOne provide) st.cp := by
  induction bs generalizing st with
  | nil => rfl
  | cons b rest ih =>
    rw [List.foldl_cons, ih, List.flatten_cons, List.foldl_append]
    rfl

theorem mem_foldl_processed (provide : String → List ℚ) (l : List Transcript) (c : CP)
    (x : String) :
    x ∈ (l.foldl (embedOne provide) c).processed_ids
      ↔ x ∈ c.processed_ids ∨ x ∈ l.map Transcript.transcript_id := by
  induction l generalizing c with
  | nil => simp
  | cons t rest ih =>
    rw [List.foldl_cons, ih]
    show _ ∈ (setInsert t.transcript_id c.processed_ids) ∨ _ ↔ _
    rw [mem_setInsert]
    simp [List.mem_cons]
    tauto

theorem toProcess_nil (l : List Transcript) : toProcess [] l = l := by
  rw [toProcess, List.filter_eq_self]
  intro t ht
  simp [List.contains]

theorem filter_take_ids_eq_drop (l : List Transcript) (m : Nat)
    (hnd : (l.map Transcript.transcript_id).Nodup) :
    l.filter (fun t =>
        !(((l.take m).map Transcript.transcript_id).contains t.transcript_id))
      = l.drop m := by
  have hsplit : (l.take m).map Transcript.transcript_id
        ++ (l.drop m).map Transcript.transcript_id
      = l.map Transcript.transcript_id := by
    rw [← List.map_append, List.take_append_drop]
  have hdisj : List.Disjoint ((l.take m).map Transcript.transcript_id)
      ((l.drop m).map Transcript.transcript_id) :=
    List.disjoint_of_nodup_append (by rw [hsplit]; exact hnd)
  have hstep : l.filter (fun t =>
        !(((l.take m).map Transcript.transcript_id).contains t.transcript_id))
      = (l.take m ++ l.drop m).filter (fun t =>
        !(((l.take m).map Transcript.transcript_id).contains t.transcript_id)) := by
    rw [List.take_append_drop]
  rw [hstep, List.filter_append]
  have h1 : (l.take m).filter (fun t =>
      !(((l.take m).map Transcript.transcript_id).contains t.transcript_id)) = [] := by
    rw [List.filter_eq_nil_iff]
    intro t ht hc
    rw [Bool.not_eq_true'] at hc
    have hmem : ((l.take m).map Transcript.transcript_id).contains t.transcript_id = true :=
      (contains_iff_mem _ _).mpr (List.mem_map_of_mem _ ht)
    rw [hmem] at hc
    cases hc
  have h2 : (l.drop m).filter (fun t =>
      !(((l.take m).map Transcript.transcript_id).contains t.transcript_id)) = l.drop m := by
    rw [List.filter_eq_self]
    intro t ht
    rw [Bool.not_eq_true', Bool.eq_false_iff]
    intro hc
    exact hdisj ((contains_iff_mem _ _).mp hc) (List.mem_map_of_mem _ ht)
  rw [h1, h2, List.nil_append]

/-! ## Claim C2: interruption and resume -/

/-- C2: for every record list with (data-model) unique ids, every
deterministic table of provider responses and every interruption point after
`j` full batches, the resumed run first skips exactly the records whose ids
the checkpoint marks processed — its work list is `records.drop (j * 64)`,
each remaining record queued once — and the final checkpoint state
(embeddings and processed ids) equals that of an uninterrupted run over the
same inputs, so every transcript id ends with the same embedding. -/
theorem c2_resume_equivalence (provide : String → List ℚ) (records : List Transcript)
    (j : Nat) (hnd : (records.map Transcript.transcript_id).Nodup) :
    toProcess (interruptedAfter provide records j).processed_ids records
        = records.drop (j * BATCH_SIZE)
    ∧ (runBuild provide (interruptedAfter provide records j) records).cp
        = (runBuild provide { processed_ids := [], embeddings := [] } records).cp := by
  have hn : 0 < BATCH_SIZE := by decide
  have hcpj : (interruptedAfter provide records j) =
      (records.take (j * BATCH_SIZE)).foldl (embedOne provide)
        { processed_ids := [], embeddings := [] } := by
    rw [interruptedAfter, foldl_processBatch_cp, toProcess_nil, chunks_take_flatten _ hn]
  have hmemJ : ∀ x, x ∈ (interruptedAfter provide records j).processed_ids
      ↔ x ∈ (records.take (j * BATCH_SIZE)).map Transcript.transcript_id := by
    intro x
    rw [hcpj, mem_foldl_processed]
    simp
  have htop : toProcess (interruptedAfter provide records j).processed_ids records
      = records.drop (j * BATCH_SIZE) := by
    rw [toProcess]
    rw [List.filter_congr (fun t _ => ?_)]
    · exact filter_take_ids_eq_drop records (j * BATCH_SIZE) hnd
    · show (!((interruptedAfter provide records j).processed_ids.contains t.transcript_id))
          = (!(((records.take (j * BATCH_SIZE)).map
                Transcript.transcript_id).contains t.transcript_id))
      have hiff : (interruptedAfter provide records j).processed_ids.contains t.transcript_id
          = ((records.take (j * BATCH_SIZE)).map
              Transcript.transcript_id).contains t.transcript_id := by
        by_cases hx : t.transcript_id ∈ (records.take (j * BATCH_SIZE)).map
            Transcript.transcript_id
        · rw [(contains_iff_mem _ _).mpr hx, (contains_iff_mem _ _).mpr ((hmemJ _).mpr hx)]
        · rw [Bool.eq_false_iff.mpr fun hc => hx ((hmemJ _).mp ((contains_iff_mem _ _).mp hc)),
            Bool.eq_false_iff.mpr fun hc => hx ((contains_iff_mem _ _).mp hc)]
      rw [hiff]
  refine ⟨htop, ?_⟩
  rw [runBuild, runBuild, foldl_processBatch_cp, foldl_processBatch_cp,
    chunks_flatten _ hn, chunks_flatten _ hn, htop, toProcess_nil]
  show (records.drop (j * BATCH_SIZE)).foldl (embedOne provide)
      (interruptedAfter provide records j)
    = records.foldl (embedOne provide) { processed_ids := [], embeddings := [] }
  rw [hcpj, ← List.foldl_append, List.take_append_drop]

/-- Witness for C2: two records, interruption after the first batch. -/
theorem c2_resume_equivalence_witness :
    toProcess (interruptedAfter (fun _ => [1]) [tRecA, tRecB] 1).processed_ids [tRecA, tRecB]
        = [tRecA, tRecB].drop (1 * BATCH_SIZE)
    ∧ (runBuild (fun _ => [1]) (interruptedAfter (fun _ => [1]) [tRecA, tRecB] 1)
        [tRecA, tRecB]).cp
        = (runBuild (fun _ => [1]) { processed_ids := [], embeddings := [] }
            [tRecA, tRecB]).cp :=
  c2_resume_equivalence (fun _ => [1]) [tRecA, tRecB] 1 (by decide)

/-! ## Helper lemmas: dimension recording and dict lookups -/

theorem processBatch_dimension_some (provide : String → List ℚ) (st : BuildState)
    (b : List Transcript) (d : Nat) (h : st.dimension = some d) :
    (processBatch provide st b).dimension = some d := by
  simp [processBatch, h]

theorem foldl_processBatch_dimension_some (provide : String → List ℚ)
    (bs : List (List Transcript)) (st : BuildState) (d : Nat) (h : st.dimension = some d) :
    (bs.foldl (processBatch provide) st).dimension = some d := by
  induction bs generalizing st with
  | nil => exact h
  | cons b rest ih =>
    rw [List.foldl_cons]
    exact ih _ (processBatch_dimension_some provide st b d h)

theorem lookup_dictInsert_self (k : String) (v : List ℚ) (d : List (String × List ℚ)) :
    List.lookup k (dictInsert k v d) = some v := by
  induction d with
  | nil => simp [dictInsert, List.lookup]
  | cons p rest ih =>
    obtain ⟨a, b⟩ := p
    rw [dictInsert]
    by_cases hak : a = k
    · subst hak
      rw [if_pos rfl]
      simp [List.lookup]
    · rw [if_neg hak]
      have hka : (k == a) = false := by
        simp only [beq_eq_false_iff_ne, ne_eq]
        exact fun h => hak h.symm
      simp [List.lookup, hka, ih]

theorem lookup_dictInsert_ne (x k : String) (v : List ℚ) (d : List (String × List ℚ))
    (h : x ≠ k) : List.lookup x (dictInsert k v d) = List.lookup x d := by
  induction d with
  | nil => simp [dictInsert, List.lookup, beq_eq_false_iff_ne.mpr h]
  | cons p rest ih =>
    obtain ⟨a, b⟩ := p
    rw [dictInsert]
    by_cases hak : a = k
    · subst hak
      simp [List.lookup, beq_eq_false_iff_ne.mpr h]
    · rw [if_neg hak]
      by_cases hxa : x = a
      · subst hxa
        simp [List.lookup]
      · simp [List.lookup, beq_eq_false_iff_ne.mpr hxa, ih]

theorem lookup_foldl_not_mem (provide : String → List ℚ) (l : List Transcript) (c : CP)
    (k : String) (h : k ∉ l.map Transcript.transcript_id) :
    List.lookup k (l.foldl (embedOne provide) c).embeddings = List.lookup k c.embeddings := by
  induction l generalizing c with
  | nil => rfl
  | cons t rest ih =>
    simp only [List.map_cons, List.mem_cons, not_or] at h
    rw [List.foldl_cons, ih _ h.2]
    exact lookup_dictInsert_ne k t.transcript_id _ _ h.1

theorem lookup_foldl_mem (provide : String → List ℚ) (l : List Transcript) (c : CP)
    (t : Transcript) (hnd : (l.map Transcript.transcript_id).Nodup) (hmem : t ∈ l) :
    List.lookup t.transcript_id (l.foldl (embedOne provide) c).embeddings
      = some (provide (compose_embedding_text t)) := by
  induction l generalizing c with
  | nil => cases hmem
  | cons u rest ih =>
    rw [List.map_cons, List.nodup_cons] at hnd
    obtain ⟨hu, hrest⟩ := hnd
    rw [List.foldl_cons]
    rcases List.mem_cons.mp hmem with rfl | hmem2
    · rw [lookup_foldl_not_mem provide rest _ _ hu]
      exact lookup_dictInsert_self t.transcript_id _ c.embeddings
    · exact ih _ hrest hmem2

/-! ## Claim C6: no dimension check after the first batch -/

/-- Provider table for the C6 counterexample: 2-component vectors for every
text except record `"64"`'s, which gets a 3-component vector — the provider
model changing for the second batch. -/
def provideC6 : String → List ℚ := fun s =>
  if s = compose_embedding_text
      { transcript_id := "64", split := "s", job_title := "64" }
  then [0, 0, 0] else [0, 0]

/-- 65 records — one more than `BATCH_SIZE` — so the run spans two batches,
and only the second batch's last record gets a 3-component vector. -/
def recsC6 : List Transcript :=
  (List.range 65).map fun i =>
    { transcript_id := toString i, split := "s", job_title := toString i }

/-- C6, counterexample: a two-batch run whose second batch returns vectors of
a different length completes normally — the recorded dimension stays 2 (from
the first batch) while the mismatched 3-component vector is stored, with no
`DataError`: the source records the dimension once and never compares later
batches against it. -/
theorem c6_counterexample :
    (runBuild provideC6 { processed_ids := [], embeddings := [] } recsC6).dimension = some 2
    ∧ List.lookup "64"
        (runBuild provideC6 { processed_ids := [], embeddings := [] } recsC6).cp.embeddings
      = some [0, 0, 0] := by
  with_unfolding_all decide

/-- C6 (amended): the Vector Store dimension is recorded from the first
batch's first vector and never updated or checked again; every processed
record's vector is merged into the store unconditionally, whatever its
length. -/
theorem c6_no_dimension_check (provide : String → List ℚ) (records : List Transcript)
    (hnd : (records.map Transcript.transcript_id).Nodup) :
    (runBuild provide { processed_ids := [], embeddings := [] } records).dimension
        = records.head?.map (fun t => (provide (compose_embedding_text t)).length)
    ∧ ∀ t ∈ records,
        List.lookup t.transcript_id
            (runBuild provide { processed_ids := [], embeddings := [] }
              records).cp.embeddings
          = some (provide (compose_embedding_text t)) := by
  constructor
  · cases records with
    | nil => rfl
    | cons x xs =>
      rw [runBuild, toProcess_nil]
      have hchunks : chunks BATCH_SIZE (x :: xs)
          = (x :: xs).take BATCH_SIZE
            :: chunksGo BATCH_SIZE xs.length (xs.drop (BATCH_SIZE - 1)) := rfl
      rw [hchunks, List.foldl_cons]
      exact foldl_processBatch_dimension_some provide _ _ _ rfl
  · intro t ht
    rw [runBuild, foldl_processBatch_cp, toProcess_nil, chunks_flatten _ (by decide)]
    exact lookup_foldl_mem provide records _ t hnd ht

/-- Witness for the amended C6 theorem on a one-record run. -/
theorem c6_no_dimension_check_witness :
    (runBuild (fun _ => [(1 : ℚ)]) { processed_ids := [], embeddings := [] }
        [tRecA]).dimension
        = [tRecA].head?.map
            (fun t => ((fun _ => [(1 : ℚ)]) (compose_embedding_text t)).length)
    ∧ ∀ t ∈ [tRecA],
        List.lookup t.transcript_id
            (runBuild (fun _ => [(1 : ℚ)]) { processed_ids := [], embeddings := [] }
              [tRecA]).cp.embeddings
          = some ((fun _ => [(1 : ℚ)]) (compose_embedding_text t)) :=
  c6_no_dimension_check (fun _ => [(1 : ℚ)]) [tRecA] (by decide)

/-! ## Claim C10: composition of the embedding text -/

/-- Record whose AI-tools list holds the unknown sentinel as its only
element. -/
def tRecTools : Transcript :=
  { transcript_id := "x", split := "s", ai_tools_mentioned := ["UNKNOWN"] }

/-- C10, counterexample: a record whose `ai_tools_mentioned` is `["UNKNOWN"]`
produces the labelled section `AI TOOLS: UNKNOWN` in the composed text — the
list-valued sections are only tested for emptiness, so an unknown-valued
section is not omitted.  (The repository treats `"UNKNOWN"` elements of list
fields as the unknown sentinel: both `main.py`'s summary counters and
`normalize.py` skip them.) -/
theorem c10_counterexample :
    tRecTools.ai_tools_mentioned = ["UNKNOWN"]
    ∧ compose_embedding_text tRecTools = "INTERVIEW TRANSCRIPT:\n\n\nAI TOOLS: UNKNOWN"
    ∧ "AI TOOLS: UNKNOWN".data <:+: (compose_embedding_text tRecTools).data := by
  refine ⟨rfl, rfl, ?_⟩
  with_unfolding_all decide

/-- C10 (amended): the composed embedding text is the `"\n\n"`-join of the
seven labelled sections in the fixed order (transcript, job title, industry,
AI tools, use cases, pain points, project summary), keeping exactly those
whose presence condition holds: string-valued sections when nonempty and not
the `"UNKNOWN"` sentinel, list-valued sections when the list is nonempty —
a list containing the sentinel string is still included. -/
theorem c10_sections (t : Transcript) :
    composeSections t = ((sectionTemplate t).filter Prod.fst).map Prod.snd
    ∧ compose_embedding_text t
      = String.intercalate "\n\n" (((sectionTemplate t).filter Prod.fst).map Prod.snd) := by
  have htrue : ∀ (x : String) (rest : List (Bool × String)),
      (((true, x) :: rest).filter Prod.fst).map Prod.snd
        = x :: (rest.filter Prod.fst).map Prod.snd := by
    intro x rest
    simp
  have hcons : ∀ (b : Prop) (inst : Decidable b) (x : String) (rest : List (Bool × String)),
      (((@decide b inst, x) :: rest).filter Prod.fst).map Prod.snd
        = (if b then [x] else []) ++ (rest.filter Prod.fst).map Prod.snd := by
    intro b inst x rest
    by_cases hb : b <;> simp [hb]
  have h : composeSections t = ((sectionTemplate t).filter Prod.fst).map Prod.snd := by
    rw [composeSections, sectionTemplate, htrue, hcons, hcons, hcons, hcons, hcons, hcons]
    simp [List.append_assoc]
  exact ⟨h, by rw [compose_embedding_text, h]⟩
